import Mathlib

/-!
Verification of the backtest analyzer (`src/backtest_analyzer_gpt.py`).

The development embeds the three analytical components of the source file:

* `analyze_liquidation_risk` — the margin-account liquidation simulator
  (source lines 18-79), embedded with exact rational arithmetic in place of
  IEEE doubles; the float value `NaN` is modelled by `Option.none` where it
  can arise (the drawdown quotient).
* the over-optimization diagnostics inlined in `main` (source lines
  229-269): sample-size, concentration, monthly-loss and monthly
  coefficient-of-variation heuristics.
* `detect_initial_cap_from_workbook` — the initial-capital detector
  (source lines 82-142), over an abstract workbook model: a cell is either
  missing or carries a text rendering together with the result of numeric
  coercion; a `read_excel` failure or a raised per-sheet scan is a flag.
-/

namespace Backtest

/-! ## Liquidation simulator (`analyze_liquidation_risk`, lines 18-79) -/

/-- Parameters of `analyze_liquidation_risk` (defaults: 300, 10, 0.005, true). -/
structure LiqConfig where
  init_cap : ℚ
  leverage : ℚ
  maintenance_margin_rate : ℚ
  assume_full_exposure : Bool
deriving DecidableEq

/-- `cushion_min` in the result dict: `None`, a finite float, or `float('inf')`. -/
inductive Cushion where
  | absent
  | val (q : ℚ)
  | inf
deriving DecidableEq

/-- The summary dict returned by `analyze_liquidation_risk`.
`max_drawdown_pct = none` models the float `NaN`. -/
structure SimResult where
  liquidation_occurred : Bool
  liquidation_trade_index : Option ℕ
  min_equity : ℚ
  final_equity : ℚ
  max_drawdown_pct : Option ℚ
  cushion_min : Cushion
  equity_series : List ℚ
deriving DecidableEq

/-- Lines 36-40: `position_notional = eq * leverage` under full exposure,
else `eq`. -/
def position_notional (cfg : LiqConfig) (eq : ℚ) : ℚ :=
  if cfg.assume_full_exposure then eq * cfg.leverage else eq

/-- What one pass of the loop of lines 34-54 accumulates: the equity values
appended after each trade, the recorded maintenance amounts, and the first
recorded liquidation index. -/
structure LoopOut where
  equities : List ℚ
  maints : List ℚ
  liqIdx : Option ℕ
deriving DecidableEq

/-- The loop of lines 34-54.  `eq` is the running equity, `i` the value of
`enumerate`'s counter, `liq` the `liquidation_index` accumulator (sticky:
only written while it is `none`, line 51). -/
def liqLoop (cfg : LiqConfig) : ℚ → ℕ → Option ℕ → List ℚ → LoopOut
  | _, _, liq, [] => ⟨[], [], liq⟩
  | eq, i, liq, r :: rest =>
    let mm := cfg.maintenance_margin_rate * position_notional cfg eq
    let eq_after := eq + eq * r
    let liq' := if eq_after ≤ mm ∧ liq = none then some i else liq
    let out := liqLoop cfg eq_after (i + 1) liq' rest
    ⟨eq_after :: out.equities, mm :: out.maints, out.liqIdx⟩

/-- Float division as used for the drawdown quotient, line 58.  `0/0` is
`NaN`, modelled `none`.  A nonzero numerator over zero would be `±inf`;
for a running peak that case cannot arise (a zero peak forces a zero
equity at the same position), so collapsing it to `none` as well is
observationally exact for every reachable input. -/
def fdiv (a b : ℚ) : Option ℚ := if b = 0 then none else some (a / b)

/-- `np.maximum.accumulate` on the list `x :: l` (line 57). -/
def accMax (x : ℚ) : List ℚ → List ℚ
  | [] => [x]
  | y :: ys => x :: accMax (max x y) ys

/-- `np.nanmax`: the maximum of the non-`NaN` entries, `NaN` (`none`) when
there is none. -/
def nanmax (l : List (Option ℚ)) : Option ℚ :=
  match l.filterMap id with
  | [] => none
  | x :: xs => some (xs.foldl max x)

/-- `np.min` on a nonempty list (`0` on `[]`, a case the simulator never
produces since the equity series always holds the initial capital). -/
def npMin : List ℚ → ℚ
  | [] => 0
  | x :: xs => xs.foldl min x

/-- `df['analysis_return'].fillna(0)` (line 34): a missing return counts 0. -/
def fillna0 (col : List (Option ℚ)) : List ℚ := col.map (fun o => o.getD 0)

/-- `analyze_liquidation_risk` (lines 18-79).  The input is the
`analysis_return` column, entries possibly missing. -/
def analyze_liquidation_risk (cfg : LiqConfig) (col : List (Option ℚ)) : SimResult :=
  let rs := fillna0 col
  let out := liqLoop cfg cfg.init_cap 0 none rs
  let equities := cfg.init_cap :: out.equities
  let peaks := accMax cfg.init_cap out.equities
  let drawdowns := List.zipWith (fun p e => fdiv (p - e) p) peaks equities
  let max_drawdown : Option ℚ :=
    match drawdowns with
    | [] => some 0
    | _ => nanmax drawdowns
  let min_equity := npMin equities
  let cushion : Cushion :=
    match out.maints with
    | [] => .absent
    | m :: ms =>
      let min_maintenance := npMin (m :: ms)
      if 0 < min_maintenance then .val (min_equity / min_maintenance) else .inf
  { liquidation_occurred := out.liqIdx.isSome,
    liquidation_trade_index := out.liqIdx,
    min_equity := min_equity,
    final_equity := equities.getLastD 0,
    max_drawdown_pct := max_drawdown.map (· * 100),
    cushion_min := cushion,
    equity_series := equities }

/-! ### Characterizations of the loop's three outputs -/

/-- The equity values appended by the loop: `eqPath eq rs` is the equity
after each trade, starting from equity `eq`. -/
def eqPath (eq : ℚ) : List ℚ → List ℚ
  | [] => []
  | r :: rest => (eq + eq * r) :: eqPath (eq + eq * r) rest

/-- The maintenance amounts recorded by the loop, one per trade. -/
def mmPath (cfg : LiqConfig) (eq : ℚ) : List ℚ → List ℚ
  | [] => []
  | r :: rest =>
    cfg.maintenance_margin_rate * position_notional cfg eq :: mmPath cfg (eq + eq * r) rest

/-- The first (0-based) liquidating trade index along the path, if any. -/
def firstLiqIdx (cfg : LiqConfig) (eq : ℚ) : List ℚ → Option ℕ
  | [] => none
  | r :: rest =>
    if eq + eq * r ≤ cfg.maintenance_margin_rate * position_notional cfg eq then some 0
    else (firstLiqIdx cfg (eq + eq * r) rest).map (· + 1)

/-- Step `i` of an equity series `es` liquidates: the post-trade equity
`es[i+1]` is at or below the maintenance amount computed from the pre-trade
equity `es[i]` of the same step. -/
def liqCondAt (cfg : LiqConfig) (es : List ℚ) (i : ℕ) : Prop :=
  i + 1 < es.length ∧
    es.getD (i + 1) 0 ≤ cfg.maintenance_margin_rate * position_notional cfg (es.getD i 0)

instance (cfg : LiqConfig) (es : List ℚ) (i : ℕ) : Decidable (liqCondAt cfg es i) := by
  unfold liqCondAt; infer_instance

/-! ## Over-optimization diagnostics (`main`, lines 229-269)

One row of the analysis frame built at lines 205-219: the per-trade return
fraction `analysis_return` (missing values already replaced by 0 at line
202) and the calendar month of the trade's date, encoded as a month count
(year times 12 plus month) so that consecutive months are consecutive
numbers. -/

structure Trade where
  ret : ℚ
  month : ℕ
deriving DecidableEq

/-- `n_trades = len(df)` (line 230). -/
def n_trades (ts : List Trade) : ℕ := ts.length

/-- Heuristic 1, lines 234-235: warn when fewer than 30 completed trades. -/
def sample_size_warn (ts : List Trade) : Bool := n_trades ts < 30

/-- The `analysis_return` column. -/
def returns (ts : List Trade) : List ℚ := ts.map (·.ret)

/-- `total_return = df["analysis_return"].sum()` (line 239). -/
def total_return (ts : List Trade) : ℚ := (returns ts).sum

/-- `top_k = min(10, n_trades)` (line 238). -/
def top_k (ts : List Trade) : ℕ := min 10 (n_trades ts)

/-- `df["analysis_return"].nlargest(top_k).sum()` (line 240): the sum of the
`top_k` largest returns, via a descending sort. -/
def top_returns (ts : List Trade) : ℚ :=
  ((returns ts).insertionSort (· ≥ ·)).take (top_k ts) |>.sum

/-- Lines 242-244: the concentration quotient is computed (and reported)
only when the total return is strictly positive. -/
def top_share (ts : List Trade) : Option ℚ :=
  if 0 < total_return ts then some (top_returns ts / total_return ts) else none

/-- Heuristic 2, lines 242-246: warn when the computed quotient exceeds 0.6;
never warn when the quotient is not computed. -/
def concentration_warn (ts : List Trade) : Bool :=
  match top_share ts with
  | some r => 3/5 < r
  | none => false

/-- Month keys present in the frame. -/
def monthKeys (ts : List Trade) : List ℕ := ts.map (·.month)

/-- The smallest month key (0 for an empty frame). -/
def minMonth (ts : List Trade) : ℕ :=
  match monthKeys ts with
  | [] => 0
  | m :: ms => ms.foldl min m

/-- The largest month key (0 for an empty frame). -/
def maxMonth (ts : List Trade) : ℕ :=
  match monthKeys ts with
  | [] => 0
  | m :: ms => ms.foldl max m

/-- `df.groupby(pd.Grouper(key='date', freq='M'))['analysis_return'].sum()`
(line 250): one bucket per calendar month from the earliest to the latest
trade month, months without trades summing to 0; empty for an empty frame. -/
def monthly_sums (ts : List Trade) : List ℚ :=
  match ts with
  | [] => []
  | _ :: _ =>
    (List.range (maxMonth ts - minMonth ts + 1)).map
      (fun k => ((ts.filter (fun t => t.month = minMonth ts + k)).map (·.ret)).sum)

/-- `negative_months` (line 256). -/
def negative_months (ts : List Trade) : ℕ :=
  ((monthly_sums ts).filter (· < 0)).length

/-- `total_months = len(monthly_returns)` (line 257). -/
def total_months (ts : List Trade) : ℕ := (monthly_sums ts).length

/-- Heuristic 3, lines 249-261: warn when the trade frame is nonempty, at
least one month bucket exists, and more than 40% of the buckets sum
negative. -/
def neg_month_warn (ts : List Trade) : Bool :=
  decide (0 < n_trades ts) && decide (0 < total_months ts) &&
    decide ((2 : ℚ)/5 < (negative_months ts : ℚ) / (total_months ts : ℚ))

/-- `np.mean` of a list of rationals (0 for the empty list, as `0/0 = 0`
in `ℚ`; the source only takes the mean of a nonempty series). -/
def meanQ (l : List ℚ) : ℚ := l.sum / l.length

/-- `np.std` squared: the population variance (`ddof = 0`). -/
def popVar (l : List ℚ) : ℚ :=
  (l.map (fun x => (x - meanQ l) ^ 2)).sum / l.length

/-- Line 266: `cv = std_dev / abs(mean_return) if mean_return != 0 else
float('inf')`.  The standard deviation is the real square root of the
population variance; `float('inf')` is `⊤` in `EReal`. -/
noncomputable def cv (l : List ℚ) : EReal :=
  if meanQ l = 0 then ⊤
  else ((Real.sqrt ((popVar l : ℚ) : ℝ) / |((meanQ l : ℚ) : ℝ)| : ℝ) : EReal)

/-- Heuristic 4, lines 263-269: evaluated only when there is more than one
month bucket; warn when the coefficient of variation exceeds 1.5 (an
infinite cv exceeds it). -/
def cv_warn (ts : List Trade) : Prop :=
  1 < total_months ts ∧ ((3/2 : ℝ) : EReal) < cv (monthly_sums ts)

/-- Some diagnostic warning fires on the trade frame `ts`. -/
def any_diag_warn (ts : List Trade) : Prop :=
  sample_size_warn ts = true ∨ concentration_warn ts = true ∨
    neg_month_warn ts = true ∨ cv_warn ts

/-! ## Capital detector (`detect_initial_cap_from_workbook`, lines 82-142)

Workbook model.  A cell is either missing (`NaN`) or carries its text
rendering `str(cell)` together with the outcome of
`pd.to_numeric(cell, errors='coerce')` (`none` when that is `NaN`). -/

inductive Cell where
  | na
  | val (text : String) (numeric : Option ℚ)
deriving DecidableEq

/-- A header-labelled column of the first `read_excel` view. -/
structure Column where
  label : String
  cells : List Cell
deriving DecidableEq

/-- A sheet of the first `read_excel` view.  `raisesOnScan` models the
`except` of lines 108-109: the per-sheet column loop raises and the whole
sheet is skipped. -/
structure Sheet where
  name : String
  cols : List Column
  raisesOnScan : Bool
deriving DecidableEq

/-- A sheet of the `header=None` re-read: a grid of cells. -/
structure RawSheet where
  name : String
  grid : List (List Cell)
deriving DecidableEq

/-- A workbook: the two `read_excel` views, each `none` when the read
raises (lines 95-96 and 114-115). -/
structure Workbook where
  headerRead : Option (List Sheet)
  rawRead : Option (List RawSheet)

/-- `pd.to_numeric` for one cell (missing and non-coercing cells yield
nothing, matching `dropna` and the `isnan` check). -/
def cellNum : Cell → Option ℚ
  | .na => none
  | .val _ n => n

/-- Lowercasing, by character (kernel-reducible `str.lower()`). -/
def lowerStr (s : String) : String := String.mk (s.data.map Char.toLower)

/-- Python `str.strip()` for the common whitespace characters. -/
def isWSChar (c : Char) : Bool := c = ' ' || c = '\t' || c = '\n' || c = '\r'

/-- Python `str.strip()`. -/
def stripStr (s : String) : String :=
  String.mk (((s.data.dropWhile isWSChar).reverse.dropWhile isWSChar).reverse)

/-- Python's substring test `pat in s`. -/
def strHasSub (s pat : String) : Bool :=
  (List.range (s.data.length + 1)).any (fun i => pat.data.isPrefixOf (s.data.drop i))

/-- Line 91: the keyword list. -/
def label_keywords : List String :=
  ["initial", "starting", "start", "capital", "balance", "initial capital",
    "initial balance"]

/-- `any(k in low for k in label_keywords)` where `low` is already
lowercased (lines 103 and 130). -/
def matchesKeyword (low : String) : Bool :=
  label_keywords.any (fun k => strHasSub low k)

/-- The provenance string of line 107. -/
def provenanceHeader (sheetName colLabel : String) : String :=
  s!"sheet '{sheetName}' column '{colLabel}'"

/-- The body of the column loop, lines 101-107: a keyword-matching label
whose column holds at least one coercible value returns the first such
value with its provenance. -/
def columnScan (sheetName : String) (c : Column) : Option (ℚ × String) :=
  if matchesKeyword (lowerStr c.label) then
    (c.cells.filterMap cellNum).head?.map (fun v => (v, provenanceHeader sheetName c.label))
  else none

/-- One sheet of pass 1 (lines 99-109); a raising sheet yields nothing. -/
def headerScanSheet (s : Sheet) : Option (ℚ × String) :=
  if s.raisesOnScan then none else s.cols.findSome? (columnScan s.name)

/-- Pass 1 over all sheets in workbook order. -/
def headerPass (sheets : List Sheet) : Option (ℚ × String) :=
  sheets.findSome? headerScanSheet

/-- `arr.shape[0]`. -/
def gridRowsCount (g : List (List Cell)) : ℕ := g.length

/-- `arr.shape[1]` (rows of a pandas grid are padded to equal length; the
longest row length is that common width). -/
def gridColsCount (g : List (List Cell)) : ℕ := (g.map List.length).foldr max 0

/-- `arr[i, j]`, out-of-range reads padding as missing. -/
def gridCell (g : List (List Cell)) (i j : ℕ) : Cell :=
  ((g.get? i).bind (fun row => row.get? j)).getD Cell.na

/-- Lines 131-136: the candidate value cell for a label at `(i, j)` — the
cell to the right when it exists and is not missing, else the cell below
when it exists; `Cell.na` plays both Python's `None` and a missing cell,
which lines 135-139 treat alike. -/
def candidateAt (g : List (List Cell)) (i j : ℕ) : Cell :=
  let c1 := if j + 1 < gridColsCount g then gridCell g i (j + 1) else Cell.na
  if c1 = Cell.na ∧ i + 1 < gridRowsCount g then gridCell g (i + 1) j else c1

/-- The provenance string of line 140 (`i`, `j` 0-based, printed 1-based). -/
def provenanceLabel (sheetName labelText : String) (i j : ℕ) : String :=
  s!"sheet '{sheetName}' label '{labelText}' at ({i+1},{j+1})"

/-- One sheet of pass 2 (lines 117-140): scan the top-left 10-by-5 region
in row-major order for a keyword-bearing label cell whose candidate cell
coerces to a number. -/
def labelCellScan (s : RawSheet) : Option (ℚ × String) :=
  let nr := min 10 (gridRowsCount s.grid)
  let nc := min 5 (gridColsCount s.grid)
  (List.range nr).findSome? fun i =>
    (List.range nc).findSome? fun j =>
      match gridCell s.grid i j with
      | Cell.na => none
      | Cell.val t _ =>
        if matchesKeyword (lowerStr (stripStr t)) then
          match candidateAt s.grid i j with
          | Cell.na => none
          | Cell.val _ none => none
          | Cell.val _ (some q) => some (q, provenanceLabel s.name t i j)
        else none

/-- Pass 2 over all sheets in workbook order. -/
def rawPass (raws : List RawSheet) : Option (ℚ × String) :=
  raws.findSome? labelCellScan

/-- `detect_initial_cap_from_workbook` (lines 82-142): pass 1, then pass 2,
`(None, None)` when a read raises or both passes exhaust. -/
def detect_initial_cap_from_workbook (wb : Workbook) : Option ℚ × Option String :=
  match wb.headerRead with
  | none => (none, none)
  | some sheets =>
    match headerPass sheets with
    | some (v, src) => (some v, some src)
    | none =>
      match wb.rawRead with
      | none => (none, none)
      | some raws =>
        match rawPass raws with
        | some (v, src) => (some v, some src)
        | none => (none, none)

/-! ## Lemmas: the loop of lines 34-54 computes the three paths -/

theorem liqLoop_equities (cfg : LiqConfig) (rs : List ℚ) :
    ∀ (eq : ℚ) (i : ℕ) (liq : Option ℕ), (liqLoop cfg eq i liq rs).equities = eqPath eq rs := by
  induction rs with
  | nil => intro eq i liq; rfl
  | cons r rest ih => intro eq i liq; simp only [liqLoop, eqPath]; rw [ih]

theorem liqLoop_maints (cfg : LiqConfig) (rs : List ℚ) :
    ∀ (eq : ℚ) (i : ℕ) (liq : Option ℕ), (liqLoop cfg eq i liq rs).maints = mmPath cfg eq rs := by
  induction rs with
  | nil => intro eq i liq; rfl
  | cons r rest ih => intro eq i liq; simp only [liqLoop, mmPath]; rw [ih]

theorem liqLoop_liqIdx_some (cfg : LiqConfig) (rs : List ℚ) :
    ∀ (eq : ℚ) (i j : ℕ), (liqLoop cfg eq i (some j) rs).liqIdx = some j := by
  induction rs with
  | nil => intro eq i j; rfl
  | cons r rest ih => intro eq i j; simp only [liqLoop]; rw [if_neg (by simp), ih]

theorem liqLoop_liqIdx_none (cfg : LiqConfig) (rs : List ℚ) :
    ∀ (eq : ℚ) (i : ℕ),
      (liqLoop cfg eq i none rs).liqIdx = (firstLiqIdx cfg eq rs).map (· + i) := by
  induction rs with
  | nil => intro eq i; rfl
  | cons r rest ih =>
    intro eq i
    by_cases h : eq + eq * r ≤ cfg.maintenance_margin_rate * position_notional cfg eq
    · simp [liqLoop, firstLiqIdx, h, liqLoop_liqIdx_some]
    · simp only [liqLoop, firstLiqIdx, h, if_neg h, and_true, if_false, ih,
        if_neg (fun hc : _ ∧ (none : Option ℕ) = none => h hc.1)]
      cases firstLiqIdx cfg (eq + eq * r) rest with
      | none => rfl
      | some m => simp only [Option.map_some', Option.some.injEq]; omega

theorem eqPath_length (eq : ℚ) (rs : List ℚ) : (eqPath eq rs).length = rs.length := by
  induction rs generalizing eq with
  | nil => rfl
  | cons r rest ih => simp only [eqPath, List.length_cons, ih]

/-! ## Lemmas: the liquidation condition along the equity path -/

theorem liqCondAt_cons_succ (cfg : LiqConfig) (e : ℚ) (X : List ℚ) (k : ℕ) :
    liqCondAt cfg (e :: X) (k + 1) ↔ liqCondAt cfg X k := by
  simp only [liqCondAt, List.length_cons, List.getD_cons_succ]
  constructor
  · rintro ⟨h1, h2⟩; exact ⟨by omega, h2⟩
  · rintro ⟨h1, h2⟩; exact ⟨by omega, h2⟩

theorem liqCondAt_cons_cons_zero (cfg : LiqConfig) (e a : ℚ) (X : List ℚ) :
    liqCondAt cfg (e :: a :: X) 0 ↔
      a ≤ cfg.maintenance_margin_rate * position_notional cfg e := by
  simp only [liqCondAt, List.length_cons, List.getD_cons_succ, List.getD_cons_zero]
  constructor
  · rintro ⟨_, h⟩; exact h
  · intro h; exact ⟨by omega, h⟩

theorem firstLiqIdx_some_iff (cfg : LiqConfig) (rs : List ℚ) :
    ∀ (eq : ℚ) (k : ℕ),
      firstLiqIdx cfg eq rs = some k ↔
        (liqCondAt cfg (eq :: eqPath eq rs) k ∧
          ∀ j < k, ¬ liqCondAt cfg (eq :: eqPath eq rs) j) := by
  induction rs with
  | nil =>
    intro eq k
    simp [firstLiqIdx, eqPath, liqCondAt]
  | cons r rest ih =>
    intro eq k
    have hpath : eqPath eq (r :: rest) = (eq + eq * r) :: eqPath (eq + eq * r) rest := rfl
    rw [hpath]
    by_cases h : eq + eq * r ≤ cfg.maintenance_margin_rate * position_notional cfg eq
    · cases k with
      | zero =>
        simp only [firstLiqIdx, if_pos h]
        simp [liqCondAt_cons_cons_zero, h]
      | succ k' =>
        simp only [firstLiqIdx, if_pos h]
        constructor
        · intro hc; exact absurd hc (by simp)
        · rintro ⟨_, hall⟩
          exact absurd ((liqCondAt_cons_cons_zero cfg eq _ _).mpr h)
            (hall 0 (Nat.succ_pos _))
    · cases k with
      | zero =>
        simp only [firstLiqIdx, if_neg h]
        constructor
        · intro hc
          rcases Option.map_eq_some'.mp hc with ⟨m, _, hm⟩
          omega
        · rintro ⟨hc0, _⟩
          exact absurd ((liqCondAt_cons_cons_zero cfg eq _ _).mp hc0) h
      | succ k' =>
        simp only [firstLiqIdx, if_neg h]
        constructor
        · intro hc
          rcases Option.map_eq_some'.mp hc with ⟨m, hm, hmk⟩
          have hmk' : m = k' := by omega
          subst hmk'
          rcases (ih _ _).mp hm with ⟨hc', hall'⟩
          refine ⟨(liqCondAt_cons_succ cfg eq _ _).mpr hc', ?_⟩
          intro j hj
          cases j with
          | zero =>
            intro hc0
            exact h ((liqCondAt_cons_cons_zero cfg eq _ _).mp hc0)
          | succ j' =>
            intro hcj
            exact hall' j' (by omega) ((liqCondAt_cons_succ cfg eq _ _).mp hcj)
        · rintro ⟨hc, hall⟩
          have hm : firstLiqIdx cfg (eq + eq * r) rest = some k' := by
            refine (ih _ _).mpr ⟨(liqCondAt_cons_succ cfg eq _ _).mp hc, ?_⟩
            intro j hj hcj
            exact hall (j + 1) (by omega) ((liqCondAt_cons_succ cfg eq _ _).mpr hcj)
          rw [hm, Option.map_some']

theorem firstLiqIdx_none_iff (cfg : LiqConfig) (rs : List ℚ) :
    ∀ (eq : ℚ),
      firstLiqIdx cfg eq rs = none ↔
        ∀ k, ¬ liqCondAt cfg (eq :: eqPath eq rs) k := by
  induction rs with
  | nil =>
    intro eq
    simp [firstLiqIdx, eqPath, liqCondAt]
  | cons r rest ih =>
    intro eq
    have hpath : eqPath eq (r :: rest) = (eq + eq * r) :: eqPath (eq + eq * r) rest := rfl
    rw [hpath]
    by_cases h : eq + eq * r ≤ cfg.maintenance_margin_rate * position_notional cfg eq
    · simp only [firstLiqIdx, if_pos h]
      constructor
      · intro hc; exact absurd hc (by simp)
      · intro hall
        exact absurd ((liqCondAt_cons_cons_zero cfg eq _ _).mpr h) (hall 0)
    · simp only [firstLiqIdx, if_neg h, Option.map_eq_none']
      rw [ih]
      constructor
      · intro hall k
        cases k with
        | zero =>
          intro hc0
          exact h ((liqCondAt_cons_cons_zero cfg eq _ _).mp hc0)
        | succ k' =>
          intro hck
          exact hall k' ((liqCondAt_cons_succ cfg eq _ _).mp hck)
      · intro hall k hck
        exact hall (k + 1) ((liqCondAt_cons_succ cfg eq _ _).mpr hck)

/-! ## Lemmas: reading the simulator's outputs -/

theorem fillna0_map_some (rs : List ℚ) : fillna0 (rs.map some) = rs := by
  simp [fillna0, List.map_map, Function.comp_def]

theorem analyze_equity_series (cfg : LiqConfig) (col : List (Option ℚ)) :
    (analyze_liquidation_risk cfg col).equity_series =
      cfg.init_cap :: eqPath cfg.init_cap (fillna0 col) := by
  simp [analyze_liquidation_risk, liqLoop_equities]

theorem analyze_liqIdx (cfg : LiqConfig) (col : List (Option ℚ)) :
    (analyze_liquidation_risk cfg col).liquidation_trade_index =
      firstLiqIdx cfg cfg.init_cap (fillna0 col) := by
  simp only [analyze_liquidation_risk, liqLoop_liqIdx_none]
  cases firstLiqIdx cfg cfg.init_cap (fillna0 col) <;> simp

theorem analyze_occurred (cfg : LiqConfig) (col : List (Option ℚ)) :
    (analyze_liquidation_risk cfg col).liquidation_occurred =
      (firstLiqIdx cfg cfg.init_cap (fillna0 col)).isSome := by
  simp only [analyze_liquidation_risk, liqLoop_liqIdx_none]
  cases firstLiqIdx cfg cfg.init_cap (fillna0 col) <;> simp

theorem analyze_min_equity (cfg : LiqConfig) (col : List (Option ℚ)) :
    (analyze_liquidation_risk cfg col).min_equity =
      npMin (cfg.init_cap :: eqPath cfg.init_cap (fillna0 col)) := by
  simp [analyze_liquidation_risk, liqLoop_equities]

theorem analyze_cushion (cfg : LiqConfig) (col : List (Option ℚ)) :
    (analyze_liquidation_risk cfg col).cushion_min =
      match mmPath cfg cfg.init_cap (fillna0 col) with
      | [] => Cushion.absent
      | m :: ms =>
        if 0 < npMin (m :: ms) then
          Cushion.val (npMin (cfg.init_cap :: eqPath cfg.init_cap (fillna0 col)) / npMin (m :: ms))
        else Cushion.inf := by
  simp [analyze_liquidation_risk, liqLoop_maints, liqLoop_equities]

/-! ## Lemmas: arithmetic of the equity path -/

theorem eqPath_cons_getD (eq : ℚ) (rs : List ℚ) :
    ∀ n, n < rs.length →
      (eq :: eqPath eq rs).getD (n + 1) 0 =
        (eq :: eqPath eq rs).getD n 0 * (1 + rs.getD n 0) := by
  induction rs generalizing eq with
  | nil => intro n hn; simp at hn
  | cons r rest ih =>
    intro n hn
    cases n with
    | zero =>
      simp only [eqPath, List.getD_cons_succ, List.getD_cons_zero]
      ring
    | succ n' =>
      have h' := ih (eq + eq * r) n' (by simpa using hn)
      simpa only [eqPath, List.getD_cons_succ] using h'

theorem eqPath_replicate_getD (p : ℚ) :
    ∀ (n N : ℕ) (eq : ℚ), n ≤ N →
      (eq :: eqPath eq (List.replicate N (-p))).getD n 0 = eq * (1 - p) ^ n := by
  intro n
  induction n with
  | zero => intro N eq _; simp
  | succ n' ih =>
    intro N eq hn
    cases N with
    | zero => omega
    | succ N' =>
      have hrep : List.replicate (N' + 1) (-p) = -p :: List.replicate N' (-p) := rfl
      rw [hrep]
      have hstep : eqPath eq (-p :: List.replicate N' (-p)) =
          (eq + eq * -p) :: eqPath (eq + eq * -p) (List.replicate N' (-p)) := rfl
      rw [hstep, List.getD_cons_succ]
      rw [ih N' (eq + eq * -p) (by omega)]
      ring

theorem eqPath_pos (rs : List ℚ) :
    ∀ (eq : ℚ), 0 < eq → (∀ r ∈ rs, -1 < r) → ∀ e ∈ eqPath eq rs, 0 < e := by
  induction rs with
  | nil => intro eq _ _ e he; simp [eqPath] at he
  | cons r rest ih =>
    intro eq heq hall e he
    have hr : -1 < r := hall r (by simp)
    have hpos : 0 < eq + eq * r := by nlinarith
    rcases (by simpa [eqPath] using he : e = eq + eq * r ∨ e ∈ eqPath (eq + eq * r) rest) with
      h | h
    · exact h ▸ hpos
    · exact ih (eq + eq * r) hpos (fun x hx => hall x (by simp [hx])) e h

theorem npMin_pos (l : List ℚ) :
    ∀ (x : ℚ), 0 < x → (∀ e ∈ l, 0 < e) → 0 < l.foldl min x := by
  induction l with
  | nil => intro x hx _; simpa using hx
  | cons y ys ih =>
    intro x hx hall
    simp only [List.foldl_cons]
    exact ih (min x y) (lt_min hx (hall y (by simp))) (fun e he => hall e (by simp [he]))

/-! ## The claims -/

/-- C1: the `liquidated` flag is true iff some step's post-trade equity is
at or below the maintenance amount computed from that step's pre-trade
equity; `liquidation_trade_index` is the least such 0-based index; the
simulation never stops early, so the equity series has length trade count
plus one; and with capital 300, leverage 10, maintenance rate 0.005 and
full exposure, a single trade of return −1.0 records liquidation at
index 0. -/
theorem claim_C1_liquidation_semantics (cfg : LiqConfig) (rs : List ℚ) :
    ((analyze_liquidation_risk cfg (rs.map some)).equity_series.length = rs.length + 1) ∧
    ((analyze_liquidation_risk cfg (rs.map some)).liquidation_occurred = true ↔
      ∃ i, liqCondAt cfg (analyze_liquidation_risk cfg (rs.map some)).equity_series i) ∧
    (∀ i, (analyze_liquidation_risk cfg (rs.map some)).liquidation_trade_index = some i ↔
      (liqCondAt cfg (analyze_liquidation_risk cfg (rs.map some)).equity_series i ∧
        ∀ j < i, ¬ liqCondAt cfg (analyze_liquidation_risk cfg (rs.map some)).equity_series j)) ∧
    (analyze_liquidation_risk ⟨300, 10, 1/200, true⟩ [some (-1)]).liquidation_trade_index
      = some 0 := by
  rw [analyze_equity_series, analyze_liqIdx, analyze_occurred, fillna0_map_some]
  refine ⟨by simp [eqPath_length], ?_, ?_, ?_⟩
  · constructor
    · intro h
      rcases Option.isSome_iff_exists.mp h with ⟨k, hk⟩
      exact ⟨k, ((firstLiqIdx_some_iff cfg rs cfg.init_cap k).mp hk).1⟩
    · rintro ⟨i, hi⟩
      cases hF : firstLiqIdx cfg cfg.init_cap rs with
      | none => exact absurd hi ((firstLiqIdx_none_iff cfg rs cfg.init_cap).mp hF i)
      | some k => rfl
  · intro i; exact firstLiqIdx_some_iff cfg rs cfg.init_cap i
  · rw [analyze_liqIdx]
    norm_num [fillna0, firstLiqIdx, position_notional]

/-- C2: equity compounds multiplicatively on current equity —
`equity_series[n+1] = equity_series[n] * (1 + r_n)` at every step, and a
constant per-trade return of `-p` (`0 < p < 1`) over `N` steps gives
`equity_series[n] = initial_capital * (1-p)^n` exactly. -/
theorem claim_C2_compounding (cfg : LiqConfig) (rs : List ℚ) (p : ℚ) (N n : ℕ)
    (hp0 : 0 < p) (hp1 : p < 1) (hn : n ≤ N) :
    (∀ m, m < rs.length →
      (analyze_liquidation_risk cfg (rs.map some)).equity_series.getD (m + 1) 0 =
        (analyze_liquidation_risk cfg (rs.map some)).equity_series.getD m 0
          * (1 + rs.getD m 0)) ∧
    (analyze_liquidation_risk cfg ((List.replicate N (-p)).map some)).equity_series.getD n 0 =
      cfg.init_cap * (1 - p) ^ n := by
  constructor
  · intro m hm
    rw [analyze_equity_series, fillna0_map_some]
    exact eqPath_cons_getD cfg.init_cap rs m hm
  · rw [analyze_equity_series, fillna0_map_some]
    exact eqPath_replicate_getD p n N cfg.init_cap hn

theorem claim_C2_compounding_witness :
    ((analyze_liquidation_risk ⟨300, 10, 1/200, true⟩
        ((List.replicate 2 (-(1/2))).map some)).equity_series.getD 2 0 =
      300 * (1 - 1/2) ^ 2) ∧
    (300 : ℚ) * (1 - 1/2) ^ 2 ≠ 300 * (1 - 2 * (1/2)) := by
  constructor
  · exact (claim_C2_compounding ⟨300, 10, 1/200, true⟩ [] (1/2) 2 2
      (by norm_num) (by norm_num) (by norm_num)).2
  · norm_num

/-- C10: with positive initial capital and every return strictly above
−1, every equity value stays strictly positive (hence so does
`min_equity`); and liquidation can be recorded while equity is positive,
as the single trade −0.96 under the default configuration shows. -/
theorem claim_C10_positive_equity (cfg : LiqConfig) (rs : List ℚ)
    (hcap : 0 < cfg.init_cap) (hr : ∀ r ∈ rs, -1 < r) :
    (∀ e ∈ (analyze_liquidation_risk cfg (rs.map some)).equity_series, 0 < e) ∧
    (0 < (analyze_liquidation_risk cfg (rs.map some)).min_equity) ∧
    ((analyze_liquidation_risk ⟨300, 10, 1/200, true⟩ [some (-(24/25))]).liquidation_occurred
        = true ∧
      ∀ e ∈ (analyze_liquidation_risk ⟨300, 10, 1/200, true⟩
          [some (-(24/25))]).equity_series, 0 < e) := by
  have hpath := eqPath_pos rs cfg.init_cap hcap hr
  refine ⟨?_, ?_, ?_, ?_⟩
  · rw [analyze_equity_series, fillna0_map_some]
    intro e he
    rcases List.mem_cons.mp he with h | h
    · exact h ▸ hcap
    · exact hpath e h
  · rw [analyze_min_equity, fillna0_map_some]
    exact npMin_pos _ cfg.init_cap hcap hpath
  · rw [analyze_occurred]
    norm_num [fillna0, firstLiqIdx, position_notional]
  · rw [analyze_equity_series]
    norm_num [fillna0, eqPath]

theorem claim_C10_positive_equity_witness :
    (∀ e ∈ (analyze_liquidation_risk ⟨300, 10, 1/200, true⟩
        (([-(1/2), 1/10] : List ℚ).map some)).equity_series, 0 < e) ∧
    0 < (analyze_liquidation_risk ⟨300, 10, 1/200, true⟩
        (([-(1/2), 1/10] : List ℚ).map some)).min_equity := by
  have h := claim_C10_positive_equity ⟨300, 10, 1/200, true⟩ [-(1/2), 1/10]
    (by norm_num)
    (by
      intro r hr
      simp only [List.mem_cons, List.not_mem_nil, or_false] at hr
      rcases hr with h | h <;> subst h <;> norm_num)
  exact ⟨h.1, h.2.1⟩

/-- C3 counterexample: with no steps taken (empty trade series) the source
sets `cushion_min` to Python `None` (absent), not to infinity as the claim
states. -/
theorem claim_C3_cushion_counterexample :
    (analyze_liquidation_risk ⟨300, 10, 1/200, true⟩ []).cushion_min = Cushion.absent ∧
      Cushion.absent ≠ Cushion.inf := by
  exact ⟨rfl, by decide⟩

/-- C3 amended: `cushion_min` equals `min(equity series) / min(maintenance
amounts)` when at least one step was taken and that minimum maintenance
amount is strictly positive; it is infinity when at least one step was
taken and the minimum maintenance amount is zero or negative; and it is
absent (`None`) when no steps were taken. -/
theorem claim_C3_cushion_amended (cfg : LiqConfig) (col : List (Option ℚ)) :
    (col = [] → (analyze_liquidation_risk cfg col).cushion_min = Cushion.absent) ∧
    (∀ o os, col = o :: os →
      (0 < npMin (mmPath cfg cfg.init_cap (fillna0 col)) →
        (analyze_liquidation_risk cfg col).cushion_min =
          Cushion.val (npMin (analyze_liquidation_risk cfg col).equity_series /
            npMin (mmPath cfg cfg.init_cap (fillna0 col)))) ∧
      (npMin (mmPath cfg cfg.init_cap (fillna0 col)) ≤ 0 →
        (analyze_liquidation_risk cfg col).cushion_min = Cushion.inf)) := by
  constructor
  · rintro rfl; rfl
  · rintro o os rfl
    rw [analyze_cushion, analyze_equity_series]
    have hfill : fillna0 (o :: os) = o.getD 0 :: fillna0 os := rfl
    rw [hfill]
    have hmm : mmPath cfg cfg.init_cap (o.getD 0 :: fillna0 os) =
        cfg.maintenance_margin_rate * position_notional cfg cfg.init_cap ::
          mmPath cfg (cfg.init_cap + cfg.init_cap * o.getD 0) (fillna0 os) := rfl
    rw [hmm]
    constructor
    · intro hpos
      simp only [if_pos hpos]
    · intro hle
      simp only [if_neg (not_lt.mpr hle)]

theorem claim_C3_cushion_amended_witness :
    ((analyze_liquidation_risk ⟨300, 10, 1/200, true⟩ [some (-(1/2))]).cushion_min =
      Cushion.val (npMin (analyze_liquidation_risk ⟨300, 10, 1/200, true⟩
          [some (-(1/2))]).equity_series /
        npMin (mmPath ⟨300, 10, 1/200, true⟩ 300 (fillna0 [some (-(1/2))])))) ∧
    npMin (analyze_liquidation_risk ⟨300, 10, 1/200, true⟩
        [some (-(1/2))]).equity_series /
      npMin (mmPath ⟨300, 10, 1/200, true⟩ 300 (fillna0 [some (-(1/2))])) = 10 := by
  constructor
  · exact ((claim_C3_cushion_amended ⟨300, 10, 1/200, true⟩ [some (-(1/2))]).2
      (some (-(1/2))) [] rfl).1
      (by norm_num [mmPath, fillna0, npMin, position_notional])
  · rw [analyze_equity_series]
    norm_num [mmPath, fillna0, npMin, position_notional, eqPath]

/-- C4 counterexample: on the empty trade series the diagnostics do fire a
warning — the sample-size heuristic fires because 0 < 30 — contradicting
the claim that no warnings fire. -/
theorem claim_C4_empty_counterexample :
    any_diag_warn ([] : List Trade) ∧ sample_size_warn ([] : List Trade) = true :=
  ⟨Or.inl (by decide), by decide⟩

/-- C4 amended: on the empty trade series (and a nonzero initial capital)
the simulator returns `equity_series = [initial_capital]`,
`liquidated = false` and `max_drawdown_pct = 0`, without failing; the
diagnostics fire exactly one warning — the sample-size warning (0 < 30) —
while the concentration, monthly-loss and coefficient-of-variation
heuristics are all skipped. -/
theorem claim_C4_empty_series_amended (cfg : LiqConfig) (h : cfg.init_cap ≠ 0) :
    (analyze_liquidation_risk cfg []).equity_series = [cfg.init_cap] ∧
    (analyze_liquidation_risk cfg []).liquidation_occurred = false ∧
    (analyze_liquidation_risk cfg []).max_drawdown_pct = some 0 ∧
    sample_size_warn [] = true ∧ concentration_warn [] = false ∧
    neg_month_warn [] = false ∧ ¬ cv_warn [] := by
  refine ⟨rfl, rfl, ?_, by decide, by decide, by decide, ?_⟩
  · simp [analyze_liquidation_risk, fillna0, liqLoop, accMax, nanmax, fdiv, h]
  · rintro ⟨h1, _⟩
    simp [total_months, monthly_sums] at h1

theorem claim_C4_empty_series_amended_witness :
    (analyze_liquidation_risk ⟨300, 10, 1/200, true⟩ []).equity_series = [300] ∧
    (analyze_liquidation_risk ⟨300, 10, 1/200, true⟩ []).liquidation_occurred = false ∧
    (analyze_liquidation_risk ⟨300, 10, 1/200, true⟩ []).max_drawdown_pct = some 0 := by
  have h := claim_C4_empty_series_amended ⟨300, 10, 1/200, true⟩ (by norm_num)
  exact ⟨h.1, h.2.1, h.2.2.1⟩

/-- With at most ten trades, `nlargest(top_k)` keeps every trade, so the
top-K sum is the whole sum (a descending sort permutes the returns). -/
theorem top_returns_of_le_ten (ts : List Trade) (h : n_trades ts ≤ 10) :
    top_returns ts = total_return ts := by
  unfold top_returns total_return top_k
  have hlen : (returns ts).length = n_trades ts := by simp [returns, n_trades]
  rw [List.take_of_length_le (by rw [List.length_insertionSort, hlen]; omega)]
  exact (List.perm_insertionSort _ _).sum_eq

/-- C5: when the total return is strictly positive, the concentration
quotient is `top-K sum / total sum` and the warning fires exactly when it
exceeds 0.6; when the total is nonpositive, the heuristic is skipped (no
quotient, no warning).  For ten trades — nine at 0.01 and one at 0.5 — the
quotient is exactly 1 and the warning fires. -/
theorem claim_C5_concentration (ts : List Trade) :
    (0 < total_return ts →
      top_share ts = some (top_returns ts / total_return ts) ∧
      (concentration_warn ts = true ↔ 3/5 < top_returns ts / total_return ts)) ∧
    (total_return ts ≤ 0 → top_share ts = none ∧ concentration_warn ts = false) ∧
    (top_share (List.replicate 9 (⟨1/100, 0⟩ : Trade) ++ [⟨1/2, 0⟩]) = some 1 ∧
      concentration_warn (List.replicate 9 (⟨1/100, 0⟩ : Trade) ++ [⟨1/2, 0⟩]) = true) := by
  have hgen : ∀ us : List Trade,
      (0 < total_return us →
        top_share us = some (top_returns us / total_return us) ∧
        (concentration_warn us = true ↔ 3/5 < top_returns us / total_return us)) ∧
      (total_return us ≤ 0 → top_share us = none ∧ concentration_warn us = false) := by
    intro us
    constructor
    · intro h
      have hs : top_share us = some (top_returns us / total_return us) := if_pos h
      refine ⟨hs, ?_⟩
      simp [concentration_warn, hs]
    · intro h
      have hs : top_share us = none := if_neg (not_lt.mpr h)
      refine ⟨hs, ?_⟩
      simp [concentration_warn, hs]
  refine ⟨(hgen ts).1, (hgen ts).2, ?_, ?_⟩
  · have htot : total_return (List.replicate 9 (⟨1/100, 0⟩ : Trade) ++ [⟨1/2, 0⟩]) =
        59/100 := by
      simp [total_return, returns, List.sum_replicate]
      norm_num
    have htop := top_returns_of_le_ten (List.replicate 9 (⟨1/100, 0⟩ : Trade) ++ [⟨1/2, 0⟩])
      (by simp [n_trades])
    have h1 := (hgen _).1 (by rw [htot]; norm_num)
    rw [h1.1, htop, htot]
    norm_num
  · have htot : total_return (List.replicate 9 (⟨1/100, 0⟩ : Trade) ++ [⟨1/2, 0⟩]) =
        59/100 := by
      simp [total_return, returns, List.sum_replicate]
      norm_num
    have htop := top_returns_of_le_ten (List.replicate 9 (⟨1/100, 0⟩ : Trade) ++ [⟨1/2, 0⟩])
      (by simp [n_trades])
    have h1 := (hgen _).1 (by rw [htot]; norm_num)
    rw [h1.2, htop, htot]
    norm_num

/-- C6: the sample-size warning fires exactly when there are fewer than 30
trades; in particular it fires for 29 trades and not for 30. -/
theorem claim_C6_sample_size (ts : List Trade) :
    (sample_size_warn ts = true ↔ n_trades ts < 30) ∧
    sample_size_warn (List.replicate 29 (⟨0, 0⟩ : Trade)) = true ∧
    sample_size_warn (List.replicate 30 (⟨0, 0⟩ : Trade)) = false := by
  refine ⟨?_, by decide, by decide⟩
  simp [sample_size_warn]

/-- The comparison `cv > 1.5` of line 268, freed of the square root: it
holds exactly when the mean is zero (infinite cv) or the population
variance exceeds `(1.5 · mean)²`. -/
theorem cv_gt_threshold_iff (l : List ℚ) :
    ((3/2 : ℝ) : EReal) < cv l ↔
      (meanQ l = 0 ∨ (9/4 : ℚ) * meanQ l ^ 2 < popVar l) := by
  unfold cv
  by_cases hm : meanQ l = 0
  · simp only [if_pos hm, hm, true_or, iff_true]
    exact EReal.coe_lt_top _
  · rw [if_neg hm, EReal.coe_lt_coe_iff]
    have habs : (0:ℝ) < |((meanQ l : ℚ) : ℝ)| :=
      abs_pos.mpr (by exact_mod_cast hm)
    rw [lt_div_iff₀ habs, Real.lt_sqrt (by positivity)]
    have hsq : ((3:ℝ)/2 * |((meanQ l : ℚ) : ℝ)|) ^ 2 =
        9/4 * ((meanQ l : ℚ) : ℝ) ^ 2 := by
      rw [mul_pow, sq_abs]; ring
    rw [hsq,
      show (9:ℝ)/4 * ((meanQ l : ℚ) : ℝ) ^ 2 = (((9/4 * meanQ l ^ 2 : ℚ)) : ℝ) from by
        push_cast; ring,
      Rat.cast_lt]
    constructor
    · intro h
      exact Or.inr h
    · rintro (h | h)
      · exact absurd h hm
      · exact h

/-- C7: the monthly coefficient-of-variation heuristic is evaluated only
with at least two month buckets; the cv is the population standard
deviation over the absolute mean of the monthly sums, infinite exactly
when that mean is zero; the warning fires exactly when the cv exceeds 1.5
(equivalently: zero mean, or variance above `(1.5 · mean)²`); and every
case is a total computation — a zero mean yields the infinity sentinel,
never a fault. -/
theorem claim_C7_monthly_cv (ts : List Trade) :
    (cv_warn ts → 2 ≤ total_months ts) ∧
    (cv (monthly_sums ts) = ⊤ ↔ meanQ (monthly_sums ts) = 0) ∧
    (meanQ (monthly_sums ts) ≠ 0 →
      cv (monthly_sums ts) =
        ((Real.sqrt ((popVar (monthly_sums ts) : ℚ) : ℝ) /
          |((meanQ (monthly_sums ts) : ℚ) : ℝ)| : ℝ) : EReal)) ∧
    (cv_warn ts ↔ 2 ≤ total_months ts ∧
      (meanQ (monthly_sums ts) = 0 ∨
        (9/4 : ℚ) * meanQ (monthly_sums ts) ^ 2 < popVar (monthly_sums ts))) := by
  refine ⟨?_, ?_, ?_, ?_⟩
  · rintro ⟨h1, _⟩; omega
  · unfold cv
    by_cases hm : meanQ (monthly_sums ts) = 0
    · simp [hm]
    · rw [if_neg hm]
      simp only [hm, iff_false]
      exact EReal.coe_ne_top _
  · intro hm
    unfold cv
    rw [if_neg hm]
  · unfold cv_warn
    rw [cv_gt_threshold_iff]
    constructor
    · rintro ⟨h1, h2⟩; exact ⟨by omega, h2⟩
    · rintro ⟨h1, h2⟩; exact ⟨by omega, h2⟩

theorem claim_C7_monthly_cv_witness :
    cv_warn [(⟨1, 0⟩ : Trade), ⟨-1, 1⟩] := by
  refine (claim_C7_monthly_cv [(⟨1, 0⟩ : Trade), ⟨-1, 1⟩]).2.2.2.mpr ⟨?_, Or.inl ?_⟩
  · norm_num [total_months, monthly_sums, minMonth, maxMonth, monthKeys, List.range_succ]
  · norm_num [meanQ, monthly_sums, minMonth, maxMonth, monthKeys, List.range_succ]

/-! ## The detector claims -/

theorem findSome?_middle {α β : Type} (f : α → Option β) (pre : List α) (x : α)
    (post : List α) (v : β) (hpre : ∀ y ∈ pre, f y = none) (hx : f x = some v) :
    (pre ++ x :: post).findSome? f = some v := by
  induction pre with
  | nil => simp [List.findSome?_cons, hx]
  | cons a as ih =>
    have ha : f a = none := hpre a (by simp)
    simp only [List.cons_append, List.findSome?_cons, ha]
    exact ih (fun y hy => hpre y (by simp [hy]))

/-- A sheet whose only keyword-matching column holds no numeric value: the
claim says this first sheet wins the header pass. -/
def sheetBalOnlyText : Sheet :=
  ⟨"A", [⟨"balance", [Cell.val "visit branch" none]⟩], false⟩

/-- A later sheet whose matching column does hold a number. -/
def sheetCapFive : Sheet :=
  ⟨"B", [⟨"capital", [Cell.val "5" (some 5)]⟩], false⟩

/-- The two-sheet workbook refuting C8 as stated. -/
def wbTwoSheets : Workbook := ⟨some [sheetBalOnlyText, sheetCapFive], some []⟩

/-- C8 counterexample: the first sheet has a keyword-matching column
("balance"), yet its column holds no coercible entry, so the value and the
provenance come from the second sheet — the first matching sheet does not
win. -/
theorem claim_C8_counterexample :
    (∃ c ∈ sheetBalOnlyText.cols, matchesKeyword (lowerStr c.label) = true) ∧
    sheetBalOnlyText.cols.map (fun c => c.cells.filterMap cellNum) = [[]] ∧
    detect_initial_cap_from_workbook wbTwoSheets =
      (some 5, some "sheet 'B' column 'capital'") := by
  refine ⟨⟨⟨"balance", [Cell.val "visit branch" none]⟩, by simp [sheetBalOnlyText],
    by decide⟩, rfl, ?_⟩
  rfl

/-- C8 amended: in the header pass, the first sheet — in workbook order,
skipping sheets whose scan raises — that contains a keyword-matching
column with at least one coercible entry wins; within that sheet, the
first such column; the returned value is that column's first coercible
entry (not the maximum, minimum or mean), with provenance naming the
sheet and the column. -/
theorem claim_C8_header_first_hit (wb : Workbook) (sheets pre post : List Sheet)
    (s : Sheet) (cpre cpost : List Column) (c : Column) (v : ℚ)
    (hwb : wb.headerRead = some sheets)
    (hsheets : sheets = pre ++ s :: post)
    (hpre : ∀ t ∈ pre, headerScanSheet t = none)
    (hraise : s.raisesOnScan = false)
    (hcols : s.cols = cpre ++ c :: cpost)
    (hcpre : ∀ d ∈ cpre, columnScan s.name d = none)
    (hmatch : matchesKeyword (lowerStr c.label) = true)
    (hv : (c.cells.filterMap cellNum).head? = some v) :
    detect_initial_cap_from_workbook wb =
      (some v, some (provenanceHeader s.name c.label)) := by
  have hcol : columnScan s.name c = some (v, provenanceHeader s.name c.label) := by
    unfold columnScan
    rw [if_pos hmatch, hv, Option.map_some']
  have hsheet : headerScanSheet s = some (v, provenanceHeader s.name c.label) := by
    unfold headerScanSheet
    rw [if_neg (by simp [hraise]), hcols]
    exact findSome?_middle _ cpre c cpost _ hcpre hcol
  have hp : headerPass sheets = some (v, provenanceHeader s.name c.label) := by
    unfold headerPass
    rw [hsheets]
    exact findSome?_middle _ pre s post _ hpre hsheet
  simp only [detect_initial_cap_from_workbook, hwb, hp]

/-- The single-sheet workbook of the claim's example: a "Starting Balance"
column holding 1000 then 2000. -/
def wbStartingBalance : Workbook :=
  ⟨some [⟨"Sheet1",
    [⟨"Starting Balance", [Cell.val "1000" (some 1000), Cell.val "2000" (some 2000)]⟩],
    false⟩], some []⟩

theorem claim_C8_header_first_hit_witness :
    detect_initial_cap_from_workbook wbStartingBalance =
      (some 1000, some "sheet 'Sheet1' column 'Starting Balance'") := by
  have h := claim_C8_header_first_hit wbStartingBalance
    [⟨"Sheet1",
      [⟨"Starting Balance", [Cell.val "1000" (some 1000), Cell.val "2000" (some 2000)]⟩],
      false⟩]
    [] []
    ⟨"Sheet1",
      [⟨"Starting Balance", [Cell.val "1000" (some 1000), Cell.val "2000" (some 2000)]⟩],
      false⟩
    [] []
    ⟨"Starting Balance", [Cell.val "1000" (some 1000), Cell.val "2000" (some 2000)]⟩
    1000 rfl rfl (by simp) rfl rfl (by simp) (by decide) rfl
  exact h

/-- C9: the detector is total and never signals an error: its result is
either a value with a provenance or the absent pair; a raised workbook
read yields the absent pair; a sheet whose scan raises is skipped and the
search continues with the remaining sheets; and when both passes exhaust
without a hit (or the second read raises) the result is the absent pair. -/
theorem claim_C9_detector_never_raises (wb : Workbook) :
    ((detect_initial_cap_from_workbook wb).1.isSome ↔
      (detect_initial_cap_from_workbook wb).2.isSome) ∧
    (wb.headerRead = none → detect_initial_cap_from_workbook wb = (none, none)) ∧
    (∀ sheets : List Sheet,
      headerPass sheets = headerPass (sheets.filter (fun s => !s.raisesOnScan))) ∧
    (∀ sheets, wb.headerRead = some sheets → headerPass sheets = none →
      wb.rawRead = none → detect_initial_cap_from_workbook wb = (none, none)) ∧
    (∀ sheets raws, wb.headerRead = some sheets → headerPass sheets = none →
      wb.rawRead = some raws → rawPass raws = none →
      detect_initial_cap_from_workbook wb = (none, none)) := by
  refine ⟨?_, ?_, ?_, ?_, ?_⟩
  · rcases hwb : wb.headerRead with _ | sheets
    · simp [detect_initial_cap_from_workbook, hwb]
    · rcases hp : headerPass sheets with _ | ⟨v, src⟩
      · rcases hraw : wb.rawRead with _ | raws
        · simp [detect_initial_cap_from_workbook, hwb, hp, hraw]
        · rcases hrp : rawPass raws with _ | ⟨v, src⟩ <;>
            simp [detect_initial_cap_from_workbook, hwb, hp, hraw, hrp]
      · simp [detect_initial_cap_from_workbook, hwb, hp]
  · intro h
    unfold detect_initial_cap_from_workbook
    rw [h]
  · intro sheets
    induction sheets with
    | nil => rfl
    | cons s ss ih =>
      by_cases hs : s.raisesOnScan = true
      · have hnone : headerScanSheet s = none := by
          unfold headerScanSheet; rw [if_pos hs]
        have hfil : (s :: ss).filter (fun t => !t.raisesOnScan) =
            ss.filter (fun t => !t.raisesOnScan) := by
          simp [List.filter_cons, hs]
        rw [hfil, ← ih]
        unfold headerPass
        rw [List.findSome?_cons, hnone]
      · have hfil : (s :: ss).filter (fun t => !t.raisesOnScan) =
            s :: ss.filter (fun t => !t.raisesOnScan) := by
          simp [List.filter_cons, hs]
        rw [hfil]
        unfold headerPass
        rw [List.findSome?_cons, List.findSome?_cons]
        rcases hscan : headerScanSheet s with _ | pr
        · exact ih
        · rfl
  · intro sheets hwb hp hraw
    simp only [detect_initial_cap_from_workbook, hwb, hp, hraw]
  · intro sheets raws hwb hp hraw hrp
    simp only [detect_initial_cap_from_workbook, hwb, hp, hraw, hrp]

theorem claim_C9_detector_never_raises_witness :
    detect_initial_cap_from_workbook ⟨none, none⟩ = (none, none) :=
  (claim_C9_detector_never_raises ⟨none, none⟩).2.1 rfl

end Backtest
